import Mathlib

/-!
Verification development for the `bboard` core of the nips2018-agent
repository (source: `src/bboard/bboard.hpp`).

The C++ data structures are shallowly embedded:
* machine `int` values that stay non-negative in every verified regime are
  modelled as `Nat`; 32-bit wrap-around is made explicit with `% 2 ^ 32`
  where the source relies on two's-complement arithmetic;
* the fixed C arrays backing `FixedQueue` and `State::board` are modelled
  as total functions out of `Nat`; every access of the source happens at an
  index reduced `% TSize` (respectively at indices below `BOARD_SIZE`), so
  the extra function values are never touched by the embedded operations.
-/

namespace BBoard

/-! ### Global constants (bboard.hpp, lines 15-27) -/

def MOVE_COUNT : Nat := 4
def AGENT_COUNT : Nat := 4
def BOARD_SIZE : Nat := 11
def BOMB_LIFETIME : Nat := 10
def BOMB_DEFAULT_STRENGTH : Nat := 1
def FLAME_LIFETIME : Nat := 4
def MAX_BOMBS_PER_AGENT : Nat := 5
def MAX_BOMBS : Nat := AGENT_COUNT * MAX_BOMBS_PER_AGENT

/-! ### Item encoding (bboard.hpp, lines 54-80) -/

def PASSAGE : Nat := 0
def RIGID : Nat := 1
def WOOD : Nat := 2 <<< 8
def BOMB : Nat := 3
def FLAMES : Nat := 4 <<< 16
def FOG : Nat := 5
def EXTRABOMB : Nat := 6
def INCRRANGE : Nat := 7
def KICK : Nat := 8
def AGENTDUMMY : Nat := 9
def AGENT0 : Nat := 1 <<< 24
def AGENT1 : Nat := (1 <<< 24) + 1
def AGENT2 : Nat := (1 <<< 24) + 2
def AGENT3 : Nat := (1 <<< 24) + 3

/-- Macro `IS_WOOD(x)`: `((x) >> 8) == 2`. -/
def IS_WOOD (x : Nat) : Bool := x >>> 8 == 2

/-- Macro `IS_POWERUP(x)`: `(x) > 5 && (x) < 9`. -/
def IS_POWERUP (x : Nat) : Bool := 5 < x && x < 9

/-- Macro `IS_WALKABLE(x)`: `IS_POWERUP(x) || (x) == 0`. -/
def IS_WALKABLE (x : Nat) : Bool := IS_POWERUP x || x == 0

/-- Macro `IS_FLAME(x)`: `((x) >> 16) == 4`. -/
def IS_FLAME (x : Nat) : Bool := x >>> 16 == 4

/-- The cell encodings listed as defined in the codec: `PASSAGE`, `RIGID`,
wood values `WOOD + flag` (`flag < 4`), `BOMB`, flame values
`FLAMES + payload` (`payload ≤ 0xFFFF`), `FOG`, the three power-ups and the
four agent markers. -/
def DefinedCell (c : Nat) : Prop :=
  c = PASSAGE ∨ c = RIGID ∨ (∃ f, f < 4 ∧ c = WOOD + f) ∨ c = BOMB ∨
  (∃ p, p ≤ 0xFFFF ∧ c = FLAMES + p) ∨ c = FOG ∨ c = EXTRABOMB ∨
  c = INCRRANGE ∨ c = KICK ∨ c = AGENT0 ∨ c = AGENT1 ∨ c = AGENT2 ∨
  c = AGENT3

/-! ### FixedQueue (bboard.hpp, lines 88-161)

`queue` models the backing array `T queue[TSize]`; `index` and `count` are
the two `int` cursors (non-negative in every verified regime, hence `Nat`).
Every array access of the source is of the form `queue[e % TSize]`, which
is mirrored literally. -/

structure FixedQueue (T : Type) (TSize : Nat) where
  queue : Nat → T
  index : Nat
  count : Nat

namespace FixedQueue

variable {T : Type} {TSize : Nat}

/-- Method `PopElem`: saves `x = index`, advances `index` cyclically, decrements
`count` and returns `queue[x % TSize]` together with the mutated queue. -/
def PopElem (q : FixedQueue T TSize) : T × FixedQueue T TSize :=
  (q.queue (q.index % TSize),
   { q with index := (q.index + 1) % TSize, count := q.count - 1 })

/-- Method `NextPos`: the free slot `(index + count) % TSize` polled by `AddElem`. -/
def NextPos (q : FixedQueue T TSize) : Nat :=
  (q.index + q.count) % TSize

/-- Method `AddElem`: writes `elem` into `NextPos()` and increments `count`.
The source performs no capacity check. -/
def AddElem (q : FixedQueue T TSize) (elem : T) : FixedQueue T TSize :=
  { q with queue := Function.update q.queue q.NextPos elem,
           count := q.count + 1 }

/-- Method `RemoveAt`: for `i = removeAt + 1, …, count - 1` copies the slot
`(index + i) % TSize` one logical position down to
`((index + i) % TSize - 1 + TSize) % TSize`, then decrements `count`.
The loop is rendered as a left fold over the iteration counter. -/
def RemoveAt (q : FixedQueue T TSize) (removeAt : Nat) : FixedQueue T TSize :=
  { q with
    queue := (List.range (q.count - (removeAt + 1))).foldl
      (fun acc j =>
        let translatedIndex := (q.index + (removeAt + 1 + j)) % TSize
        Function.update acc ((translatedIndex + TSize - 1) % TSize)
          (acc translatedIndex))
      q.queue,
    count := q.count - 1 }

/-- Method `operator[]`: returns the element at `(index + offset) % TSize`; the
method only reads, so the queue component of the result is unchanged. -/
def opIndex (q : FixedQueue T TSize) (offset : Nat) :
    T × FixedQueue T TSize :=
  (q.queue ((q.index + offset) % TSize), q)

/-- The logical content of the queue, front first. -/
def toList (q : FixedQueue T TSize) : List T :=
  (List.range q.count).map (fun i => q.queue ((q.index + i) % TSize))

/-- Push a whole list of elements with `AddElem`, first element first. -/
def pushAll (q : FixedQueue T TSize) (l : List T) : FixedQueue T TSize :=
  l.foldl AddElem q

/-- Perform `k` successive `PopElem` calls, collecting the returned
elements in order. -/
def popN (q : FixedQueue T TSize) : Nat → List T × FixedQueue T TSize
  | 0 => ([], q)
  | k + 1 =>
    let p := q.PopElem
    let r := p.2.popN k
    (p.1 :: r.1, r.2)

end FixedQueue

/-! ### Bomb codec (bboard.hpp, lines 216-265)

A `Bomb` is a packed 32-bit `int`; it is modelled by its unsigned 32-bit
representative, a `Nat` below `2 ^ 32`.  The C++ inverted masks
(`~0xF`, `~0xF0`, …) are written as their 32-bit two's-complement values,
and the `int` arithmetic of the setters is closed with an explicit
`% 2 ^ 32`. -/

abbrev Bomb : Type := Nat

def BMB_POS (x : Bomb) : Nat := x &&& 0xFF
def BMB_POS_X (x : Bomb) : Nat := x &&& 0xF
def BMB_POS_Y (x : Bomb) : Nat := (x &&& 0xF0) >>> 4
def BMB_ID (x : Bomb) : Nat := (x &&& 0xF00) >>> 8
def BMB_STRENGTH (x : Bomb) : Nat := (x &&& 0xF000) >>> 12
def BMB_TIME (x : Bomb) : Nat := (x &&& 0xF0000) >>> 16

/-- Constant `~0xF` as an unsigned 32-bit constant. -/
def cmask0_4 : Nat := 0xFFFFFFF0
/-- Constant `~0xF0` as an unsigned 32-bit constant. -/
def cmask4_8 : Nat := 0xFFFFFF0F
/-- Constant `~0xF00` as an unsigned 32-bit constant. -/
def cmask8_12 : Nat := 0xFFFFF0FF
/-- Constant `~0xF000` as an unsigned 32-bit constant. -/
def cmask12_16 : Nat := 0xFFFF0FFF
/-- Constant `0xFFFF` (this mask is not inverted in the source). -/
def cmask16_r : Nat := 0xFFFF

/-- Function `ReduceBombTimer`: `bomb = bomb - (1 << 16)`, a 32-bit subtraction. -/
def ReduceBombTimer (bomb : Bomb) : Bomb :=
  (bomb + 2 ^ 32 - (1 <<< 16)) % 2 ^ 32

/-- Function `SetBombPosition`: `bomb = (bomb & cmask0_4 & cmask4_8) + x + (y << 4)`. -/
def SetBombPosition (bomb : Bomb) (x y : Nat) : Bomb :=
  ((bomb &&& cmask0_4 &&& cmask4_8) + x + (y <<< 4)) % 2 ^ 32

/-- Function `SetBombID`: `bomb = (bomb & cmask8_12) + (id << 8)`. -/
def SetBombID (bomb : Bomb) (id : Nat) : Bomb :=
  ((bomb &&& cmask8_12) + (id <<< 8)) % 2 ^ 32

/-- Function `SetBombStrength`: `bomb = (bomb & cmask12_16) + (strength << 12)`. -/
def SetBombStrength (bomb : Bomb) (strength : Nat) : Bomb :=
  ((bomb &&& cmask12_16) + (strength <<< 12)) % 2 ^ 32

/-- Function `SetBombTime`: `bomb = (bomb & cmask16_r) + (time << 16)`. -/
def SetBombTime (bomb : Bomb) (time : Nat) : Bomb :=
  ((bomb &&& cmask16_r) + (time <<< 16)) % 2 ^ 32

/-! ### Positions, agents, flames, state (bboard.hpp, lines 165-410) -/

/-- Struct `Position` (two `int` coordinates; non-negative in every verified
regime, hence `Nat`). -/
structure Position where
  x : Nat
  y : Nat
deriving DecidableEq

/-- Struct `AgentInfo` with the in-class initialisers of the source. -/
structure AgentInfo where
  x : Nat
  y : Nat
  bombCount : Nat := 0
  maxBombCount : Nat := 1
  bombStrength : Nat := BOMB_DEFAULT_STRENGTH
  canKick : Bool := false
  dead : Bool := false

/-- Struct `Flame`: position, remaining lifetime, strength. -/
structure Flame where
  position : Position
  timeLeft : Nat := FLAME_LIFETIME
  strength : Nat

/-- Struct `State`: the board grid (`board[y][x]`, modelled as a total function on
row/column indices, of which only those below `BOARD_SIZE` are ever used),
the tick and alive counters, the agent records and the two queues.
`aliveAgents` is an `int` that the `Kill` primitives may decrement, so it
is modelled as `Int`. -/
structure State where
  board : Nat → Nat → Nat
  timeStep : Int := 0
  aliveAgents : Int := AGENT_COUNT
  agents : Fin 4 → AgentInfo
  bombs : FixedQueue Bomb MAX_BOMBS
  flames : FixedQueue Flame MAX_BOMBS

namespace State

/-- Method `operator[](pos)`: reads `board[pos.y][pos.x]`. -/
def opIndex (s : State) (pos : Position) : Nat :=
  s.board pos.y pos.x

/-- Method `PutItem(x, y, item)`: writes `board[y][x] = item`. -/
def PutItem (s : State) (x y : Nat) (item : Nat) : State :=
  { s with board :=
      Function.update s.board y (Function.update (s.board y) x item) }

/-- Method `Kill(agentID)`: if the agent is not yet dead, set its `dead` flag and
decrement `aliveAgents`. -/
def Kill (s : State) (agentID : Fin 4) : State :=
  if (s.agents agentID).dead then s
  else
    { s with
      agents := Function.update s.agents agentID
        { s.agents agentID with dead := true },
      aliveAgents := s.aliveAgents - 1 }

/-- The variadic `Kill(agentID, args...)` overload unfolds to a sequence of
single-agent kills, left to right; a list argument renders it. -/
def KillList (s : State) (ids : List (Fin 4)) : State :=
  ids.foldl Kill s

end State

/-- A freshly constructed `State`: `timeStep = 0`,
`aliveAgents = AGENT_COUNT`, default-initialised `AgentInfo`s and empty
queues.  The C++ default constructor leaves the board array, the agent
coordinates and the queues' backing arrays uninitialised, so those enter
as parameters. -/
def initialState (board0 : Nat → Nat → Nat) (pos0 : Fin 4 → Nat × Nat)
    (bq : Nat → Bomb) (fq : Nat → Flame) : State :=
  { board := board0
    agents := fun i => { x := (pos0 i).1, y := (pos0 i).2 }
    bombs := ⟨bq, 0, 0⟩
    flames := ⟨fq, 0, 0⟩ }

/-- A concrete state used by several witnesses. -/
def sampleState : State :=
  { board := fun _ _ => PASSAGE
    agents := fun _ => { x := 0, y := 0 }
    bombs := ⟨fun _ => 0, 0, 0⟩
    flames := ⟨fun _ => ⟨⟨0, 0⟩, FLAME_LIFETIME, 1⟩, 0, 0⟩ }

/-- A concrete state with agent 0 already dead, used by witnesses. -/
def sampleStateDead : State :=
  { board := fun _ _ => PASSAGE
    aliveAgents := 3
    agents := fun i => { x := 0, y := 0, dead := i = 0 }
    bombs := ⟨fun _ => 0, 0, 0⟩
    flames := ⟨fun _ => ⟨⟨0, 0⟩, FLAME_LIFETIME, 1⟩, 0, 0⟩ }

/-- Number of agents of `s` whose `dead` flag is set. -/
def deadCount (s : State) : Nat :=
  (Finset.univ.filter (fun i : Fin 4 => (s.agents i).dead = true)).card

/-- The alive-agent bookkeeping invariant: `aliveAgents` equals
`AGENT_COUNT` minus the number of dead agents. -/
def AliveInv (s : State) : Prop :=
  s.aliveAgents = (AGENT_COUNT : Int) - (deadCount s : Int)

/-! ### Arithmetic characterisation of the bitwise bomb codec -/

/-- Masking with a contiguous run of `w` one-bits starting at bit `j`
extracts the corresponding base-`2 ^ w` digit. -/
theorem and_mask (b w j : Nat) :
    b &&& ((2 ^ w - 1) * 2 ^ j) = b / 2 ^ j % 2 ^ w * 2 ^ j := by
  apply Nat.eq_of_testBit_eq
  intro i
  rw [Nat.testBit_and]
  rcases Nat.lt_or_ge i j with h | h
  · have h1 : ((2 ^ w - 1) * 2 ^ j).testBit i = false := by
      rw [Nat.mul_comm, Nat.testBit_mul_pow_two]
      simp [Nat.not_le_of_lt h]
    have h2 : (b / 2 ^ j % 2 ^ w * 2 ^ j).testBit i = false := by
      rw [Nat.mul_comm, Nat.testBit_mul_pow_two]
      simp [Nat.not_le_of_lt h]
    simp [h1, h2]
  · have h1 : ((2 ^ w - 1) * 2 ^ j).testBit i = decide (i - j < w) := by
      rw [Nat.mul_comm, Nat.testBit_mul_pow_two]
      simp [h]
    have h2 : (b / 2 ^ j % 2 ^ w * 2 ^ j).testBit i
        = (decide (i - j < w) && b.testBit i) := by
      rw [Nat.mul_comm, Nat.testBit_mul_pow_two]
      simp only [ge_iff_le, h, decide_True, Bool.true_and,
        Nat.testBit_mod_two_pow]
      rw [← Nat.shiftRight_eq_div_pow, Nat.testBit_shiftRight,
        Nat.add_sub_cancel' h]
    rw [h1, h2]
    cases b.testBit i <;> simp

/-- Masking with two contiguous runs of one-bits (bits `[0, a)` and
`[d, d + c)`, `a ≤ d`) extracts and recombines the two digits. -/
theorem and_mask2 (b a c d : Nat) (had : a ≤ d) :
    b &&& ((2 ^ c - 1) * 2 ^ d + (2 ^ a - 1))
      = b / 2 ^ d % 2 ^ c * 2 ^ d + b % 2 ^ a := by
  have had2 : (2 : Nat) ^ a ≤ 2 ^ d := Nat.pow_le_pow_right (by omega) had
  have h1 : (2 : Nat) ^ a - 1 < 2 ^ d := by
    have := Nat.one_le_two_pow (n := a); omega
  have h2 : b % 2 ^ a < 2 ^ d :=
    lt_of_lt_of_le (Nat.mod_lt _ (by positivity)) had2
  apply Nat.eq_of_testBit_eq
  intro i
  rw [Nat.testBit_and]
  rw [show (2 ^ c - 1) * 2 ^ d + (2 ^ a - 1)
        = 2 ^ d * (2 ^ c - 1) + (2 ^ a - 1) by ring]
  rw [show b / 2 ^ d % 2 ^ c * 2 ^ d + b % 2 ^ a
        = 2 ^ d * (b / 2 ^ d % 2 ^ c) + b % 2 ^ a by ring]
  rw [Nat.testBit_mul_pow_two_add _ h1, Nat.testBit_mul_pow_two_add _ h2]
  rcases Nat.lt_or_ge i d with h | h
  · simp only [h, if_pos]
    simp only [Nat.testBit_two_pow_sub_one, Nat.testBit_mod_two_pow]
    cases b.testBit i <;> simp
  · simp only [Nat.not_lt_of_le h, if_neg, if_false]
    simp only [Nat.testBit_two_pow_sub_one, Nat.testBit_mod_two_pow]
    rw [← Nat.shiftRight_eq_div_pow, Nat.testBit_shiftRight,
      Nat.add_sub_cancel' h]
    cases b.testBit i <;> simp

theorem BMB_POS_X_eq (b : Bomb) : BMB_POS_X b = b % 16 := by
  have := and_mask b 4 0
  norm_num at this
  simpa [BMB_POS_X] using this

theorem BMB_POS_Y_eq (b : Bomb) : BMB_POS_Y b = b / 16 % 16 := by
  have := and_mask b 4 4
  norm_num at this
  rw [BMB_POS_Y, this, Nat.shiftRight_eq_div_pow]
  norm_num

theorem BMB_ID_eq (b : Bomb) : BMB_ID b = b / 256 % 16 := by
  have := and_mask b 4 8
  norm_num at this
  rw [BMB_ID, this, Nat.shiftRight_eq_div_pow]
  norm_num

theorem BMB_STRENGTH_eq (b : Bomb) : BMB_STRENGTH b = b / 4096 % 16 := by
  have := and_mask b 4 12
  norm_num at this
  rw [BMB_STRENGTH, this, Nat.shiftRight_eq_div_pow]
  norm_num

theorem BMB_TIME_eq (b : Bomb) : BMB_TIME b = b / 65536 % 16 := by
  have := and_mask b 4 16
  norm_num at this
  rw [BMB_TIME, this, Nat.shiftRight_eq_div_pow]
  norm_num

theorem SetBombPosition_eq (b x y : Nat) :
    SetBombPosition b x y
      = (b / 256 % 16777216 * 256 + x + y * 16) % 4294967296 := by
  have hm : cmask0_4 &&& cmask4_8 = 0xFFFFFF00 := by decide
  have := and_mask b 24 8
  norm_num at this
  rw [SetBombPosition, Nat.and_assoc, hm]
  norm_num [this, Nat.shiftLeft_eq]

theorem SetBombID_eq (b id : Nat) :
    SetBombID b id
      = (b / 4096 % 1048576 * 4096 + b % 256 + id * 256) % 4294967296 := by
  have := and_mask2 b 8 20 12 (by norm_num)
  norm_num at this
  rw [SetBombID,
    show cmask8_12 = 0xFFFFF0FF from rfl,
    show (0xFFFFF0FF : Nat) = 1048575 * 4096 + 255 by norm_num,
    this, Nat.shiftLeft_eq]
  norm_num [Nat.add_assoc]

theorem SetBombStrength_eq (b s : Nat) :
    SetBombStrength b s
      = (b / 65536 % 65536 * 65536 + b % 4096 + s * 4096) % 4294967296 := by
  have := and_mask2 b 12 16 16 (by norm_num)
  norm_num at this
  rw [SetBombStrength,
    show cmask12_16 = 0xFFFF0FFF from rfl,
    show (0xFFFF0FFF : Nat) = 65535 * 65536 + 4095 by norm_num,
    this, Nat.shiftLeft_eq]
  norm_num [Nat.add_assoc]

theorem SetBombTime_eq (b t : Nat) :
    SetBombTime b t = (b % 65536 + t * 65536) % 4294967296 := by
  have := and_mask b 16 0
  norm_num at this
  rw [SetBombTime, show cmask16_r = 0xFFFF from rfl,
    show (0xFFFF : Nat) = 65535 by norm_num]
  norm_num [this, Nat.shiftLeft_eq]

theorem ReduceBombTimer_eq (b : Bomb) :
    ReduceBombTimer b = (b + 4294967296 - 65536) % 4294967296 := by
  rw [ReduceBombTimer, Nat.shiftLeft_eq]
  norm_num

/-! ### Claims about the bomb codec -/

/-- C4: for a bomb whose fields are in range (all packed bits below bit
20) and in-range arguments, each setter makes the corresponding accessor
return the value just set while every other field's accessor is
unchanged. -/
theorem C4_bomb_setters_independent (b : Bomb) (x y id s t : Nat)
    (hb : b < 2 ^ 20) (hx : x ≤ 15) (hy : y ≤ 15) (hid : id ≤ 15)
    (hs : s ≤ 15) (ht : t ≤ 15) :
    (BMB_POS_X (SetBombPosition b x y) = x ∧
     BMB_POS_Y (SetBombPosition b x y) = y ∧
     BMB_ID (SetBombPosition b x y) = BMB_ID b ∧
     BMB_STRENGTH (SetBombPosition b x y) = BMB_STRENGTH b ∧
     BMB_TIME (SetBombPosition b x y) = BMB_TIME b) ∧
    (BMB_ID (SetBombID b id) = id ∧
     BMB_POS_X (SetBombID b id) = BMB_POS_X b ∧
     BMB_POS_Y (SetBombID b id) = BMB_POS_Y b ∧
     BMB_STRENGTH (SetBombID b id) = BMB_STRENGTH b ∧
     BMB_TIME (SetBombID b id) = BMB_TIME b) ∧
    (BMB_STRENGTH (SetBombStrength b s) = s ∧
     BMB_POS_X (SetBombStrength b s) = BMB_POS_X b ∧
     BMB_POS_Y (SetBombStrength b s) = BMB_POS_Y b ∧
     BMB_ID (SetBombStrength b s) = BMB_ID b ∧
     BMB_TIME (SetBombStrength b s) = BMB_TIME b) ∧
    (BMB_TIME (SetBombTime b t) = t ∧
     BMB_POS_X (SetBombTime b t) = BMB_POS_X b ∧
     BMB_POS_Y (SetBombTime b t) = BMB_POS_Y b ∧
     BMB_ID (SetBombTime b t) = BMB_ID b ∧
     BMB_STRENGTH (SetBombTime b t) = BMB_STRENGTH b) := by
  simp only [BMB_POS_X_eq, BMB_POS_Y_eq, BMB_ID_eq, BMB_STRENGTH_eq,
    BMB_TIME_eq, SetBombPosition_eq, SetBombID_eq, SetBombStrength_eq,
    SetBombTime_eq]
  refine ⟨⟨?_, ?_, ?_, ?_, ?_⟩, ⟨?_, ?_, ?_, ?_, ?_⟩,
    ⟨?_, ?_, ?_, ?_, ?_⟩, ?_, ?_, ?_, ?_, ?_⟩ <;> omega

/-- Witness for C4 at the concrete bomb `0x54321` (x=1, y=2, id=3,
strength=4, time=5). -/
theorem C4_bomb_setters_independent_witness :
    BMB_POS_X (SetBombPosition 345889 7 8) = 7 ∧
    BMB_ID (SetBombID 345889 9) = 9 ∧
    BMB_STRENGTH (SetBombStrength 345889 10) = 10 ∧
    BMB_TIME (SetBombTime 345889 11) = 11 := by
  have h := C4_bomb_setters_independent 345889 7 8 9 10 11 (by norm_num)
    (by norm_num) (by norm_num) (by norm_num) (by norm_num) (by norm_num)
  exact ⟨h.1.1, h.2.1.1, h.2.2.1.1, h.2.2.2.1⟩

/-- C5: on a bomb with `BMB_TIME ≥ 1`, `ReduceBombTimer` decrements the
time field by exactly one and leaves position, id and strength
unchanged. -/
theorem C5_reduce_bomb_timer (b : Bomb) (hb : b < 2 ^ 32)
    (ht : 1 ≤ BMB_TIME b) :
    BMB_TIME (ReduceBombTimer b) = BMB_TIME b - 1 ∧
    BMB_POS_X (ReduceBombTimer b) = BMB_POS_X b ∧
    BMB_POS_Y (ReduceBombTimer b) = BMB_POS_Y b ∧
    BMB_ID (ReduceBombTimer b) = BMB_ID b ∧
    BMB_STRENGTH (ReduceBombTimer b) = BMB_STRENGTH b := by
  simp only [BMB_TIME_eq] at ht
  simp only [BMB_POS_X_eq, BMB_POS_Y_eq, BMB_ID_eq, BMB_STRENGTH_eq,
    BMB_TIME_eq, ReduceBombTimer_eq]
  refine ⟨?_, ?_, ?_, ?_, ?_⟩ <;> omega

/-- Witness for C5 at the concrete bomb `0x54321` (time field 5). -/
theorem C5_reduce_bomb_timer_witness :
    BMB_TIME (ReduceBombTimer 345889) = BMB_TIME 345889 - 1 ∧
    BMB_ID (ReduceBombTimer 345889) = BMB_ID 345889 := by
  have h := C5_reduce_bomb_timer 345889 (by norm_num)
    (by simp [BMB_TIME_eq])
  exact ⟨h.1, h.2.2.2.1⟩

/-! ### Claims about the cell codec and the board accessors -/

/-- C10: over the defined cell encodings, `IS_WOOD`, `IS_FLAME` and
`IS_POWERUP` are pairwise mutually exclusive, and `IS_WALKABLE` holds
exactly for `PASSAGE` and the three power-up items. -/
theorem C10_cell_predicates (c : Nat) (hc : DefinedCell c) :
    (¬(IS_WOOD c = true ∧ IS_FLAME c = true) ∧
     ¬(IS_WOOD c = true ∧ IS_POWERUP c = true) ∧
     ¬(IS_FLAME c = true ∧ IS_POWERUP c = true)) ∧
    (IS_WALKABLE c = true ↔
      (c = PASSAGE ∨ c = EXTRABOMB ∨ c = INCRRANGE ∨ c = KICK)) := by
  have hval : c = 0 ∨ c = 1 ∨ (∃ f, f < 4 ∧ c = 512 + f) ∨ c = 3 ∨
      (∃ p, p ≤ 65535 ∧ c = 262144 + p) ∨ c = 5 ∨ c = 6 ∨ c = 7 ∨ c = 8 ∨
      c = 16777216 ∨ c = 16777217 ∨ c = 16777218 ∨ c = 16777219 := by
    simpa [DefinedCell, PASSAGE, RIGID, WOOD, BOMB, FLAMES, FOG, EXTRABOMB,
      INCRRANGE, KICK, AGENT0, AGENT1, AGENT2, AGENT3,
      Nat.shiftLeft_eq] using hc
  simp only [IS_WOOD, IS_FLAME, IS_POWERUP, IS_WALKABLE, PASSAGE, EXTRABOMB,
    INCRRANGE, KICK, Nat.shiftRight_eq_div_pow, Bool.or_eq_true,
    Bool.and_eq_true, beq_iff_eq, decide_eq_true_eq]
  rcases hval with rfl | rfl | ⟨f, hf, rfl⟩ | rfl | ⟨p, hp, rfl⟩ | rfl |
    rfl | rfl | rfl | rfl | rfl | rfl | rfl <;> omega

/-- Witness for C10 at the `KICK` cell. -/
theorem C10_cell_predicates_witness : IS_WALKABLE 8 = true :=
  (C10_cell_predicates 8
    (by norm_num [DefinedCell, PASSAGE, RIGID, WOOD, BOMB, FLAMES, FOG,
      EXTRABOMB, INCRRANGE, KICK, AGENT0, AGENT1, AGENT2, AGENT3])).2.mpr
    (by norm_num [PASSAGE, EXTRABOMB, INCRRANGE, KICK])

/-- C9: `PutItem(x, y, item)` makes `operator[]` at `Position{x, y}`
return `item`, and every other in-range cell reads unchanged (both
accessors use the `board[y][x]` convention). -/
theorem C9_put_item_roundtrip (s : State) (x y item : Nat)
    (hx : x < 11) (hy : y < 11) (x' y' : Nat)
    (hx' : x' < 11) (hy' : y' < 11) :
    (s.PutItem x y item).opIndex ⟨x, y⟩ = item ∧
    ((x', y') ≠ (x, y) →
      (s.PutItem x y item).opIndex ⟨x', y'⟩ = s.opIndex ⟨x', y'⟩) := by
  constructor
  · simp [State.PutItem, State.opIndex]
  · intro hne
    simp only [State.PutItem, State.opIndex]
    rcases eq_or_ne y' y with rfl | hyy
    · have hxx : x' ≠ x := by simpa using hne
      simp [Function.update_apply, hxx]
    · simp [Function.update_apply, hyy]

/-- Witness for C9: place `RIGID` at (3, 4) on the sample state. -/
theorem C9_put_item_roundtrip_witness :
    (sampleState.PutItem 3 4 RIGID).opIndex ⟨3, 4⟩ = RIGID ∧
    (sampleState.PutItem 3 4 RIGID).opIndex ⟨2, 4⟩
      = sampleState.opIndex ⟨2, 4⟩ := by
  have h := C9_put_item_roundtrip sampleState 3 4 RIGID (by norm_num)
    (by norm_num) 2 4 (by norm_num) (by norm_num)
  exact ⟨h.1, h.2 (by simp)⟩

/-! ### Claims about agent death -/

theorem kill_of_dead {s : State} {a : Fin 4}
    (h : (s.agents a).dead = true) : s.Kill a = s := by
  simp [State.Kill, h]

theorem kill_of_alive {s : State} {a : Fin 4}
    (h : (s.agents a).dead = false) :
    s.Kill a =
      { s with
        agents := Function.update s.agents a
          { s.agents a with dead := true },
        aliveAgents := s.aliveAgents - 1 } := by
  simp [State.Kill, h]

theorem killList_cons (s : State) (a : Fin 4) (l : List (Fin 4)) :
    s.KillList (a :: l) = (s.Kill a).KillList l := rfl

/-- Over a whole sequence of kills, `aliveAgents` drops by exactly the
number of agents that were alive beforehand and occur in the sequence. -/
theorem aliveAgents_killList (s : State) (l : List (Fin 4)) :
    (s.KillList l).aliveAgents
      = s.aliveAgents -
        ((Finset.univ.filter
          (fun i => (s.agents i).dead = false ∧ i ∈ l)).card : Int) := by
  induction l generalizing s with
  | nil => simp [State.KillList]
  | cons a l ih =>
    rw [killList_cons, ih]
    rcases h : (s.agents a).dead with h' | h'
    · -- the killed agent was alive
      have hs' := kill_of_alive h
      have hagents : ∀ i : Fin 4, ((s.Kill a).agents i).dead =
          (if i = a then true else (s.agents i).dead) := by
        intro i
        rw [hs']
        by_cases hia : i = a <;> simp [Function.update_apply, hia]
      have halive : (s.Kill a).aliveAgents = s.aliveAgents - 1 := by
        rw [hs']
      have hfilter :
          Finset.univ.filter
              (fun i => (s.agents i).dead = false ∧ i ∈ a :: l)
            = insert a (Finset.univ.filter
              (fun i => ((s.Kill a).agents i).dead = false ∧ i ∈ l)) := by
        ext i
        rcases eq_or_ne i a with rfl | hia
        · simp [h, hagents]
        · simp [hagents, hia, List.mem_cons]
      have hnotmem : a ∉ Finset.univ.filter
          (fun i => ((s.Kill a).agents i).dead = false ∧ i ∈ l) := by
        simp [hagents]
      rw [halive, hfilter, Finset.card_insert_of_not_mem hnotmem]
      push_cast
      ring
    · -- the agent was already dead: killing it changes nothing
      rw [kill_of_dead h]
      have hfilter :
          Finset.univ.filter
              (fun i => (s.agents i).dead = false ∧ i ∈ a :: l)
            = Finset.univ.filter
              (fun i => (s.agents i).dead = false ∧ i ∈ l) := by
        apply Finset.filter_congr
        intro i _
        rcases eq_or_ne i a with rfl | hia
        · simp [h]
        · simp [List.mem_cons, hia]
      rw [hfilter]

/-- C6: killing an already-dead agent leaves the state unchanged, `Kill`
is idempotent, and over any sequence of kills each agent's death
decrements `aliveAgents` at most once (the drop is the cardinality of the
set of killed agents that were alive before). -/
theorem C6_kill_idempotent (s : State) (a : Fin 4) :
    ((s.agents a).dead = true → s.Kill a = s) ∧
    (s.Kill a).Kill a = s.Kill a ∧
    (∀ l : List (Fin 4),
      (s.KillList l).aliveAgents
        = s.aliveAgents -
          ((Finset.univ.filter
            (fun i => (s.agents i).dead = false ∧ i ∈ l)).card : Int)) := by
  refine ⟨fun h => kill_of_dead h, ?_, fun l => aliveAgents_killList s l⟩
  rcases h : (s.agents a).dead with h' | h'
  · apply kill_of_dead
    rw [kill_of_alive h]
    simp
  · rw [kill_of_dead h, kill_of_dead h]

/-- Witness for C6: killing the dead agent 0 of `sampleStateDead` is a
no-op. -/
theorem C6_kill_idempotent_witness :
    sampleStateDead.Kill 0 = sampleStateDead :=
  (C6_kill_idempotent sampleStateDead 0).1 (by decide)

/-- C7: the predicate `aliveAgents = AGENT_COUNT - #dead` holds for a
freshly constructed state and is preserved by single and variadic `Kill`;
it entails that `aliveAgents` never becomes negative. -/
theorem C7_alive_agents_invariant :
    (∀ board0 pos0 bq fq, AliveInv (initialState board0 pos0 bq fq)) ∧
    (∀ (s : State) (a : Fin 4), AliveInv s → AliveInv (s.Kill a)) ∧
    (∀ (s : State) (l : List (Fin 4)), AliveInv s → AliveInv (s.KillList l)) ∧
    (∀ s : State, AliveInv s → 0 ≤ s.aliveAgents) := by
  have hkill : ∀ (s : State) (a : Fin 4), AliveInv s → AliveInv (s.Kill a) := by
    intro s a hs
    rcases h : (s.agents a).dead with h' | h'
    · have hagents : ∀ i : Fin 4, ((s.Kill a).agents i).dead =
          (if i = a then true else (s.agents i).dead) := by
        intro i
        rw [kill_of_alive h]
        by_cases hia : i = a <;> simp [Function.update_apply, hia]
      have hdc : deadCount (s.Kill a) = deadCount s + 1 := by
        unfold deadCount
        have : Finset.univ.filter
              (fun i : Fin 4 => ((s.Kill a).agents i).dead = true)
            = insert a (Finset.univ.filter
              (fun i : Fin 4 => (s.agents i).dead = true)) := by
          ext i
          rcases eq_or_ne i a with rfl | hia
          · simp [hagents]
          · simp [hagents, hia]
        rw [this, Finset.card_insert_of_not_mem (by simp [h])]
      have halive : (s.Kill a).aliveAgents = s.aliveAgents - 1 := by
        rw [kill_of_alive h]
      unfold AliveInv at hs ⊢
      rw [halive, hdc, hs]
      push_cast
      ring
    · rw [kill_of_dead h]
      exact hs
  refine ⟨?_, hkill, ?_, ?_⟩
  · intro board0 pos0 bq fq
    unfold AliveInv deadCount initialState
    simp [AGENT_COUNT]
  · intro s l hs
    induction l generalizing s with
    | nil => exact hs
    | cons a l ih => exact ih _ (hkill s a hs)
  · intro s hs
    have hle : deadCount s ≤ 4 := by
      have := Finset.card_filter_le Finset.univ
        (fun i : Fin 4 => (s.agents i).dead = true)
      simpa using this
    unfold AliveInv at hs
    rw [show (AGENT_COUNT : Int) = 4 from rfl] at hs
    omega

/-- Witness for C7: the invariant holds on the sample state and survives
killing agent 2. -/
theorem C7_alive_agents_invariant_witness :
    AliveInv (sampleState.Kill 2) :=
  C7_alive_agents_invariant.2.1 sampleState 2
    (by unfold AliveInv deadCount; decide)

/-! ### The circular-buffer theory of FixedQueue -/

namespace FixedQueue

variable {T : Type} {n : Nat}

/-- Two logical offsets below the capacity land in the same slot only if
they are equal. -/
theorem slot_inj (idx : Nat) {i j : Nat} (hi : i < n) (hj : j < n)
    (h : (idx + i) % n = (idx + j) % n) : i = j := by
  have h' : i % n = j % n := Nat.ModEq.add_left_cancel' idx h
  rwa [Nat.mod_eq_of_lt hi, Nat.mod_eq_of_lt hj] at h'

theorem toList_length (q : FixedQueue T n) : q.toList.length = q.count := by
  simp [toList]

theorem count_AddElem (q : FixedQueue T n) (e : T) :
    (q.AddElem e).count = q.count + 1 := rfl

theorem index_AddElem (q : FixedQueue T n) (e : T) :
    (q.AddElem e).index = q.index := rfl

/-- Adding an element to a non-full queue appends it at the logical
back. -/
theorem toList_AddElem (q : FixedQueue T n) (e : T) (hc : q.count < n)
    (hi : q.index < n) :
    (q.AddElem e).toList = q.toList ++ [e] := by
  show (List.range (q.count + 1)).map _ = _
  rw [List.range_succ, List.map_append]
  congr 1
  · apply List.map_congr_left
    intro a ha
    have ha' : a < q.count := List.mem_range.mp ha
    apply Function.update_noteq
    intro hcontra
    exact absurd (slot_inj q.index (lt_trans ha' hc) hc hcontra)
      (Nat.ne_of_lt ha')
  · simp [AddElem, NextPos, toList]

/-- Pushing a list into a queue with enough remaining capacity appends it,
leaving the front index alone. -/
theorem pushAll_spec (q : FixedQueue T n) (l : List T)
    (h : q.count + l.length ≤ n) (hi : q.index < n) :
    (q.pushAll l).toList = q.toList ++ l ∧
    (q.pushAll l).count = q.count + l.length ∧
    (q.pushAll l).index = q.index := by
  induction l generalizing q with
  | nil => simp [pushAll]
  | cons e tl ih =>
    have hc : q.count < n := by
      simp only [List.length_cons] at h; omega
    have hstep : q.pushAll (e :: tl) = (q.AddElem e).pushAll tl := rfl
    obtain ⟨h1, h2, h3⟩ := ih (q.AddElem e)
      (by rw [count_AddElem]; simp only [List.length_cons] at h; omega)
      (by rw [index_AddElem]; exact hi)
    refine ⟨?_, ?_, ?_⟩
    · rw [hstep, h1, toList_AddElem q e hc hi]
      simp
    · rw [hstep, h2, count_AddElem, List.length_cons]
      omega
    · rw [hstep, h3, index_AddElem]

theorem PopElem_fst (q : FixedQueue T n) (hi : q.index < n) :
    q.PopElem.1 = q.queue q.index := by
  simp [PopElem, Nat.mod_eq_of_lt hi]

theorem PopElem_snd_count (q : FixedQueue T n) :
    q.PopElem.2.count = q.count - 1 := rfl

theorem PopElem_snd_index (q : FixedQueue T n) :
    q.PopElem.2.index = (q.index + 1) % n := rfl

/-- A non-empty queue's logical content is its front element followed by
the content after one pop. -/
theorem toList_eq_cons (q : FixedQueue T n) (hc : 0 < q.count)
    (hi : q.index < n) :
    q.toList = q.queue q.index :: q.PopElem.2.toList := by
  unfold toList
  obtain ⟨m, hm⟩ : ∃ m, q.count = m + 1 := ⟨q.count - 1, by omega⟩
  rw [PopElem_snd_count, hm, List.range_succ_eq_map]
  simp only [List.map_cons, List.map_map, Nat.add_sub_cancel]
  refine congrArg₂ List.cons ?_ ?_
  · rw [Nat.add_zero, Nat.mod_eq_of_lt hi]
  · apply List.map_congr_left
    intro a _
    show q.queue ((q.index + (a + 1)) % n)
        = q.PopElem.2.queue ((q.PopElem.2.index + a) % n)
    rw [PopElem_snd_index]
    show _ = q.queue (((q.index + 1) % n + a) % n)
    rw [Nat.mod_add_mod, Nat.add_assoc, Nat.add_comm 1 a]

/-- Popping `k ≤ count` times returns the first `k` logical elements in
order and leaves the remaining content (with `count` reduced by `k`). -/
theorem popN_spec (q : FixedQueue T n) (k : Nat) (hk : k ≤ q.count)
    (hc : q.count ≤ n) (hi : q.index < n) :
    (q.popN k).1 = q.toList.take k ∧
    (q.popN k).2.count = q.count - k ∧
    (q.popN k).2.index < n ∧
    (q.popN k).2.toList = q.toList.drop k := by
  induction k generalizing q with
  | zero => exact ⟨rfl, rfl, hi, rfl⟩
  | succ k ih =>
    have hn : 0 < n := by omega
    have hcpos : 0 < q.count := by omega
    have hcons := toList_eq_cons q hcpos hi
    obtain ⟨ih1, ih2, ih3, ih4⟩ := ih q.PopElem.2
      (by rw [PopElem_snd_count]; omega)
      (by rw [PopElem_snd_count]; omega)
      (by rw [PopElem_snd_index]; exact Nat.mod_lt _ hn)
    have hshow : q.popN (k + 1)
        = (q.PopElem.1 :: (q.PopElem.2.popN k).1, (q.PopElem.2.popN k).2) :=
      rfl
    refine ⟨?_, ?_, ?_, ?_⟩
    · rw [hshow, hcons, List.take_succ_cons, ih1, PopElem_fst q hi]
    · rw [hshow, ih2, PopElem_snd_count]
      omega
    · rw [hshow]
      exact ih3
    · rw [hshow, ih4, hcons, List.drop_succ_cons]

end FixedQueue

/-! ### Claims about the queue operations -/

/-- C1: pushing `n` elements (`1 ≤ n ≤ 20`) into an initially empty
`FixedQueue` of capacity `MAX_BOMBS = 20` and then popping `n` times
returns exactly those elements in FIFO order and leaves `count = 0`. -/
theorem C1_fifo_roundtrip {T : Type} (q0 : FixedQueue T MAX_BOMBS)
    (h0 : q0.index = 0) (hc : q0.count = 0) (l : List T)
    (h1 : 1 ≤ l.length) (h2 : l.length ≤ 20) :
    ((q0.pushAll l).popN l.length).1 = l ∧
    ((q0.pushAll l).popN l.length).2.count = 0 := by
  have hm : MAX_BOMBS = 20 := rfl
  have hempty : q0.toList = [] := by simp [FixedQueue.toList, hc]
  obtain ⟨p1, p2, p3⟩ := FixedQueue.pushAll_spec q0 l
    (by rw [hc, hm]; omega) (by rw [h0, hm]; omega)
  obtain ⟨s1, s2, _, _⟩ := FixedQueue.popN_spec (q0.pushAll l) l.length
    (by rw [p2, hc]; omega) (by rw [p2, hc, hm]; omega)
    (by rw [p3, h0, hm]; omega)
  constructor
  · rw [s1, p1, hempty, List.nil_append, List.take_length]
  · rw [s2, p2, hc]
    omega

/-- Witness for C1: push `[3, 1, 2]` into an empty queue and pop three
times. -/
theorem C1_fifo_roundtrip_witness :
    (((⟨fun _ => 0, 0, 0⟩ : FixedQueue Nat MAX_BOMBS).pushAll
        [3, 1, 2]).popN 3).1 = [3, 1, 2] ∧
    (((⟨fun _ => 0, 0, 0⟩ : FixedQueue Nat MAX_BOMBS).pushAll
        [3, 1, 2]).popN 3).2.count = 0 :=
  C1_fifo_roundtrip ⟨fun _ => 0, 0, 0⟩ rfl rfl [3, 1, 2]
    (by norm_num) (by norm_num)

/-- C8: indexed access at offset `i < count` reads the `i`-th logical
element — the one the `(i+1)`-th consecutive `PopElem` returns — and
leaves the queue (its front index and count included) unchanged. -/
theorem C8_indexed_access {T : Type} {n : Nat} (q : FixedQueue T n)
    (i : Nat) (h1 : i < q.count) (h2 : q.count ≤ n) (h3 : q.index < n) :
    (q.opIndex i).2 = q ∧
    (q.popN (i + 1)).1.getLast? = some (q.opIndex i).1 := by
  refine ⟨rfl, ?_⟩
  obtain ⟨s1, _, _, _⟩ := FixedQueue.popN_spec q (i + 1) (by omega) h2 h3
  rw [s1, List.getLast?_eq_getElem?]
  have hlen : (q.toList.take (i + 1)).length = i + 1 := by
    rw [List.length_take, FixedQueue.toList_length]; omega
  rw [hlen, Nat.add_sub_cancel, List.getElem?_take_of_succ]
  simp [FixedQueue.toList, FixedQueue.opIndex, List.getElem?_range h1]

/-- Witness for C8 on a wrapped-around queue of capacity 3. -/
theorem C8_indexed_access_witness :
    ((⟨fun i => i, 2, 2⟩ : FixedQueue Nat 3).opIndex 1).2
      = (⟨fun i => i, 2, 2⟩ : FixedQueue Nat 3) ∧
    ((⟨fun i => i, 2, 2⟩ : FixedQueue Nat 3).popN 2).1.getLast?
      = some (((⟨fun i => i, 2, 2⟩ : FixedQueue Nat 3).opIndex 1).1) :=
  C8_indexed_access ⟨fun i => i, 2, 2⟩ 1 (by norm_num) (by norm_num)
    (by norm_num)

/-- C3 counterexample: on the full queue `⟨(fun _ => 0), 0, 2⟩` of
capacity 2, `AddElem 7` is not rejected: `count` leaves 2 and the front
slot is overwritten with 7. -/
theorem C3_full_add_counterexample :
    ((⟨fun _ => 0, 0, 2⟩ : FixedQueue Nat 2).AddElem 7).count ≠ 2 ∧
    ((⟨fun _ => 0, 0, 2⟩ : FixedQueue Nat 2).AddElem 7).queue 0 = 7 := by
  constructor
  · decide
  · show Function.update (fun _ => 0) ((0 + 2) % 2) 7 0 = 7
    norm_num

/-- C3 amended: `AddElem` performs no capacity check; called on a full
queue (`count = TSize`) it overwrites the slot at the front index
(`NextPos` wraps around to `index`) and increments `count` beyond the
capacity. -/
theorem C3_full_add_overwrites_front {T : Type} {n : Nat}
    (q : FixedQueue T n) (e : T) (hfull : q.count = n) (hi : q.index < n) :
    (q.AddElem e).count = n + 1 ∧
    (q.AddElem e).queue = Function.update q.queue q.index e ∧
    (q.AddElem e).index = q.index := by
  refine ⟨by rw [FixedQueue.count_AddElem, hfull], ?_, rfl⟩
  show Function.update q.queue q.NextPos e = _
  rw [FixedQueue.NextPos, hfull, Nat.add_mod_right, Nat.mod_eq_of_lt hi]

/-- Witness for the amended C3 at the concrete full queue of capacity
2. -/
theorem C3_full_add_overwrites_front_witness :
    ((⟨fun _ => 0, 0, 2⟩ : FixedQueue Nat 2).AddElem 7).count = 2 + 1 ∧
    ((⟨fun _ => 0, 0, 2⟩ : FixedQueue Nat 2).AddElem 7).queue
      = Function.update (fun _ => 0) 0 7 ∧
    ((⟨fun _ => 0, 0, 2⟩ : FixedQueue Nat 2).AddElem 7).index = 0 :=
  C3_full_add_overwrites_front ⟨fun _ => 0, 0, 2⟩ 7 rfl (by norm_num)

/-- After `m` iterations of the shift loop of `RemoveAt r`, the logical
positions `r, …, r + m - 1` hold the old elements of positions
`r + 1, …, r + m`, and every other slot still holds its old element. -/
theorem shift_fold_spec {T : Type} {n : Nat} (f : Nat → T)
    (idx r cnt : Nat) (hidx : idx < n) (hcnt : cnt ≤ n) (hr : r < cnt) :
    ∀ m, m ≤ cnt - r - 1 → ∀ p, p < n →
      ((List.range m).foldl
        (fun acc j =>
          Function.update acc (((idx + (r + 1 + j)) % n + n - 1) % n)
            (acc ((idx + (r + 1 + j)) % n)))
        f) ((idx + p) % n)
      = if r ≤ p ∧ p < r + m then f ((idx + (p + 1)) % n)
        else f ((idx + p) % n) := by
  have hn : 0 < n := by omega
  intro m
  induction m with
  | zero =>
    intro _ p _
    rw [if_neg (by omega)]
    rfl
  | succ m ih =>
    intro hm p hp
    rw [List.range_succ, List.foldl_append, List.foldl_cons, List.foldl_nil]
    have htarget : ((idx + (r + 1 + m)) % n + n - 1) % n
        = (idx + (r + m)) % n := by
      have h1 : (idx + (r + 1 + m)) % n + n - 1
          = (idx + (r + 1 + m)) % n + (n - 1) := by omega
      rw [h1, Nat.mod_add_mod,
        show idx + (r + 1 + m) + (n - 1) = idx + (r + m) + n by omega,
        Nat.add_mod_right]
    have hsrc : ((List.range m).foldl
        (fun acc j =>
          Function.update acc (((idx + (r + 1 + j)) % n + n - 1) % n)
            (acc ((idx + (r + 1 + j)) % n)))
        f) ((idx + (r + 1 + m)) % n) = f ((idx + (r + 1 + m)) % n) := by
      rw [ih (by omega) (r + 1 + m) (by omega), if_neg (by omega)]
    rw [htarget, hsrc]
    by_cases hp_eq : p = r + m
    · subst hp_eq
      rw [Function.update_same, if_pos (by omega),
        show idx + (r + m + 1) = idx + (r + 1 + m) by omega]
    · have hrm : r + m < n := by omega
      rw [Function.update_noteq
        (fun hcontra => hp_eq (FixedQueue.slot_inj idx hp hrm hcontra)),
        ih (by omega) p hp]
      by_cases hcond : r ≤ p ∧ p < r + m
      · rw [if_pos hcond, if_pos (by omega)]
      · rw [if_neg hcond, if_neg (by omega)]

/-- C2: `RemoveAt i` on a queue holding `count` elements (`i < count`)
removes exactly the `i`-th logical element, keeping the others in their
relative logical order, and decrements `count` by one; the front index is
untouched. -/
theorem C2_removeAt_preserves_order {T : Type} {n : Nat}
    (q : FixedQueue T n) (r : Nat) (hr : r < q.count) (hc : q.count ≤ n)
    (hi : q.index < n) :
    (q.RemoveAt r).toList = q.toList.eraseIdx r ∧
    (q.RemoveAt r).count = q.count - 1 ∧
    (q.RemoveAt r).index = q.index := by
  refine ⟨?_, rfl, rfl⟩
  have hn : 0 < n := by omega
  apply List.ext_getElem?
  intro p
  have hlhs_len : (q.RemoveAt r).toList.length = q.count - 1 :=
    FixedQueue.toList_length _
  have hrhs_len : (q.toList.eraseIdx r).length = q.count - 1 := by
    rw [List.length_eraseIdx_of_lt
      (by rw [FixedQueue.toList_length]; exact hr),
      FixedQueue.toList_length]
  by_cases hp : p < q.count - 1
  · have hpn : p < n := by omega
    have hlhs : (q.RemoveAt r).toList[p]?
        = some ((q.RemoveAt r).queue ((q.index + p) % n)) := by
      simp only [FixedQueue.toList, List.getElem?_map,
        List.getElem?_range (show p < (q.RemoveAt r).count from hp),
        Option.map_some]
      rfl
    rw [hlhs, List.getElem?_eraseIdx]
    have hfold := shift_fold_spec q.queue q.index r q.count hi hc hr
      (q.count - (r + 1)) (by omega) p hpn
    have hq : (q.RemoveAt r).queue ((q.index + p) % n)
        = if r ≤ p ∧ p < r + (q.count - (r + 1))
          then q.queue ((q.index + (p + 1)) % n)
          else q.queue ((q.index + p) % n) := hfold
    by_cases hpr : p < r
    · rw [if_pos hpr, hq, if_neg (by omega)]
      simp [FixedQueue.toList, List.getElem?_range,
        show p < q.count by omega]
    · rw [if_neg hpr, hq, if_pos (by omega)]
      simp [FixedQueue.toList, List.getElem?_range,
        show p + 1 < q.count by omega]
  · rw [List.getElem?_eq_none (by omega),
      List.getElem?_eq_none (by omega)]

/-- Witness for C2 on a wrapped-around queue of capacity 3 holding 3
elements. -/
theorem C2_removeAt_preserves_order_witness :
    ((⟨fun i => i, 1, 3⟩ : FixedQueue Nat 3).RemoveAt 1).toList
      = (⟨fun i => i, 1, 3⟩ : FixedQueue Nat 3).toList.eraseIdx 1 ∧
    ((⟨fun i => i, 1, 3⟩ : FixedQueue Nat 3).RemoveAt 1).count = 3 - 1 ∧
    ((⟨fun i => i, 1, 3⟩ : FixedQueue Nat 3).RemoveAt 1).index = 1 :=
  C2_removeAt_preserves_order ⟨fun i => i, 1, 3⟩ 1 (by norm_num)
    (by norm_num) (by norm_num)

end BBoard
